import Mathlib

/-!
Shallow embedding of the `fontless` Vite plugin (CSS font rewriter).

The embedding follows the TypeScript source: `transformCSS`,
`addFontFaceDeclaration`, `processNode`, `renderChunk` and `generateBundle`.
The CSS parser/AST walker, the helpers from `css/parse` and `css/render`
(`extractFontFamilies`, `extractGeneric`, `extractEndOfFirstChild`,
`generateFontFace`, `generateFontFallbacks`, `relativiseFontSources`), the
esbuild minifier and the font resolution backend are external capabilities
(they are not part of the rewriter's own logic); they appear here as abstract
function parameters bundled in `Env`, and a parsed declaration carries the
outputs of the extraction helpers as fields.  The `MagicString` edit buffer is
modelled by `MagicStr` with exactly the two operations the rewriter uses:
`prepend` and `prependLeft`.
-/

namespace Fontless

/-- One source location of a font descriptor.  `url := some u` models a
remote source (the TypeScript `'url' in s` check); `none` models a local
path-only source. -/
structure FontSource where
  url : Option String
deriving DecidableEq

/-- A concrete font descriptor returned by the resolver; only its `src` list
is inspected by the rewriter itself. -/
structure FontFaceData where
  src : List FontSource
deriving DecidableEq

/-- Result of `options.resolveFontFace`: optional font list and optional
fallback font names, mirroring the optional fields of the TypeScript
`FontFaceResolution` interface. -/
structure FontFaceResolution where
  fonts : Option (List FontFaceData)
  fallbacks : Option (List String)
deriving DecidableEq

/-- The second argument passed to `options.resolveFontFace`. -/
structure ResolveArgs where
  generic : Option String
  fallbacks : List String
deriving DecidableEq

/-- An entry of the `fallbackMap` built in `addFontFaceDeclaration`:
`\x7b font: f, name: fontFamily ++ " Fallback: " ++ f \x7d`. -/
structure FallbackEntry where
  font : String
  name : String
deriving DecidableEq

/-- The `fallbackOptions` record handed to `addFontFaceDeclaration` by the
candidate walker: author-declared fallbacks, the generic family extracted
from the value, and the insertion offset (`extractEndOfFirstChild` plus the
parent offset). -/
structure FallbackOptions where
  fallbacks : List String
  generic : Option String
  index : Nat
deriving DecidableEq

/-- A css-tree `Declaration` node as the two walker passes see it: the
property name, the name of the enclosing at-rule (`this.atrule`), the family
names extracted from its value (`extractFontFamilies`), whether the value is
an unparsed `Raw` stream, the extracted generic family and the end offset of
the first value child. -/
structure Declaration where
  property : String
  atruleName : Option String
  families : List String
  valueIsRaw : Bool
  generic : Option String
  endOfFirstChild : Nat
deriving DecidableEq

/-- The plugin options and the external capabilities used by one rewrite:
the font resolver, the preload predicate, the flag for custom-property
processing, the dev-mode flag, the esbuild minifier (`none` models a
rejected promise), the CSS text generators from `css/render`, path
relativisation, the asset-directory helper and the CSS parser. -/
structure Env where
  resolveFontFace : String → ResolveArgs → Option FontFaceResolution
  processCSSVariables : Bool
  shouldPreload : String → FontFaceData → Bool
  isDev : Bool
  minify : String → Option String
  generateFontFace : String → FontFaceData → String
  generateFontFallbacks : String → FontFaceData → List FallbackEntry → List String
  relativise : FontFaceData → String → FontFaceData
  assetDir : String → String
  parse : String → List Declaration

/-- The `MagicString` edit buffer, restricted to the two operations the
rewriter performs: `prepend` (whole-text prepend, newest first) and
`prependLeft` (offset-anchored insertion, newest first at equal offsets).
The original text is stored untouched. -/
structure MagicStr where
  original : String
  intro : String
  lefts : List (Nat × String)
deriving DecidableEq

/-- `s.prepend(content)`: `intro = content + intro`. -/
def MagicStr.prepend (m : MagicStr) (content : String) : MagicStr :=
  { m with intro := content ++ m.intro }

/-- `s.prependLeft(index, content)`: record an offset-anchored insertion;
later insertions at the same offset render before earlier ones. -/
def MagicStr.prependLeft (m : MagicStr) (index : Nat) (content : String) : MagicStr :=
  { m with lefts := (index, content) :: m.lefts }

/-- All insertion text anchored at offset `j`, newest first. -/
def insertsAt (lefts : List (Nat × String)) (j : Nat) : List Char :=
  ((lefts.filter (fun p => p.1 == j)).map (fun p => p.2.data)).flatten

/-- Interleave the offset-anchored insertions with the original characters:
the insertions anchored at `j` are placed immediately before the character
at offset `j`; insertions anchored at the text length come last. -/
def weaveChars (lefts : List (Nat × String)) : Nat → List Char → List Char
  | j, [] => insertsAt lefts j
  | j, c :: cs => insertsAt lefts j ++ c :: weaveChars lefts (j + 1) cs

/-- Materialise the buffer: the prepends, then the original text with each
insertion rendered at its anchor. -/
def MagicStr.render (m : MagicStr) : List Char :=
  m.intro.data ++ weaveChars m.lefts 0 m.original.data

/-- `s.toString()`. -/
def MagicStr.toStr (m : MagicStr) : String :=
  String.mk m.render

/-- `s.hasChanged()`: the original differs from the materialised text. -/
def MagicStr.hasChanged (m : MagicStr) : Bool :=
  decide (m.original ≠ m.toStr)

/-- JavaScript `Set.add`: insertion-ordered, no duplicates. -/
def setAdd (s : List String) (u : String) : List String :=
  if u ∈ s then s else s ++ [u]

/-- JavaScript `Map.get` on the preload registry. -/
def mapGet : List (String × List String) → String → Option (List String)
  | [], _ => none
  | p :: rest, k => if p.1 = k then some p.2 else mapGet rest k

/-- JavaScript `Map.has`. -/
def mapHas (m : List (String × List String)) (k : String) : Bool :=
  (mapGet m k).isSome

/-- JavaScript `Map.set`: replace in place if the key exists, else append. -/
def mapSet : List (String × List String) → String → List String → List (String × List String)
  | [], k, v => [(k, v)]
  | p :: rest, k, v => if p.1 = k then (k, v) :: rest else p :: mapSet rest k v

/-- The per-rewrite mutable state of `transformCSS`: the edit buffer, the
injected-declaration set and the process-wide preload registry
(`options.fontsToPreload`). -/
structure RewriteState where
  buffer : MagicStr
  injectedDeclarations : List String
  fontsToPreload : List (String × List String)
deriving DecidableEq

/-- The argument object built for `options.resolveFontFace`:
`\x7b generic: fallbackOptions?.generic, fallbacks: fallbackOptions?.fallbacks || [] \x7d`. -/
def resolveArgsOf (fallbackOptions : Option FallbackOptions) : ResolveArgs :=
  { generic := fallbackOptions.bind (fun fo => fo.generic),
    fallbacks := (fallbackOptions.map (fun fo => fo.fallbacks)).getD [] }

/-- `result.fallbacks?.map(f => (\x7b font: f, name: fontFamily Fallback: f \x7d)) || []`. -/
def mkFallbackMap (fontFamily : String) (fallbacks : List String) : List FallbackEntry :=
  fallbacks.map (fun f => { font := f, name := fontFamily ++ " Fallback: " ++ f })

/-- `fallbackMap.map(f => quoted f.name).join(', ')`. -/
def insertedFamiliesText (fallbackMap : List FallbackEntry) : String :=
  String.intercalate ", " (fallbackMap.map (fun e => "\"" ++ e.name ++ "\""))

/-- `result.fonts[0].src.find(s => 'url' in s)?.url`. -/
def firstRemoteUrl (font : FontFaceData) : Option String :=
  (font.src.find? (fun s => s.url.isSome)).bind (fun s => s.url)

/-- The declaration text minification step: outside dev mode run the
minifier, falling back to the unminified text when it fails or yields an
empty result; in dev mode append a trailing newline instead. -/
def prepareDeclaration (env : Env) (declaration : String) : String :=
  if !env.isDev then
    match env.minify declaration with
    | some c => if c = "" then declaration else c
    | none => declaration
  else declaration ++ "\n"

/-- The inner `for (let declaration of declarations)` loop: skip a
declaration already in the injected set, otherwise mark it injected and
queue its prepared text. -/
def injectDeclarations (env : Env) : List String → List String → List String →
    List String × List String
  | [], injected, prefaces => (injected, prefaces)
  | d :: rest, injected, prefaces =>
    if d ∈ injected then injectDeclarations env rest injected prefaces
    else injectDeclarations env rest (injected ++ [d]) (prefaces ++ [prepareDeclaration env d])

/-- `[generateFontFace(...), ...fallbackDeclarations]` for one font. -/
def fontDeclarations (env : Env) (relative : Bool) (id : String) (fontFamily : String)
    (fallbackMap : List FallbackEntry) (font : FontFaceData) : List String :=
  env.generateFontFace fontFamily
      (if relative then env.relativise font (env.assetDir id) else font)
    :: env.generateFontFallbacks fontFamily font fallbackMap

/-- All declaration texts generated for a font list. -/
def generatedDeclarations (env : Env) (relative : Bool) (id : String) (fontFamily : String)
    (fallbackMap : List FallbackEntry) (fonts : List FontFaceData) : List String :=
  fonts.flatMap (fontDeclarations env relative id fontFamily fallbackMap)

/-- The `for (const font of result.fonts)` loop: accumulate the injected
set, the queued prefaces and the `insertFontFamilies` flag. -/
def fontsLoop (env : Env) (relative : Bool) (id : String) (fontFamily : String)
    (fallbackMap : List FallbackEntry) :
    List FontFaceData → List String → List String → Bool →
    List String × List String × Bool
  | [], injected, prefaces, insertFF => (injected, prefaces, insertFF)
  | font :: rest, injected, prefaces, insertFF =>
    let fallbackDeclarations := env.generateFontFallbacks fontFamily font fallbackMap
    let r := injectDeclarations env
      (fontDeclarations env relative id fontFamily fallbackMap font) injected prefaces
    fontsLoop env relative id fontFamily fallbackMap rest r.1 r.2
      (insertFF || !fallbackDeclarations.isEmpty)

/-- Whether any font of the list yields a non-empty fallback declaration
list, i.e. the final value of `insertFontFamilies`. -/
def anyFallbacks (env : Env) (fontFamily : String) (fallbackMap : List FallbackEntry)
    (fonts : List FontFaceData) : Bool :=
  fonts.any (fun font => !(env.generateFontFallbacks fontFamily font fallbackMap).isEmpty)

/-- One resolution task (`addFontFaceDeclaration` in the source): resolve
the family, bail out when no font comes back, record the preload URL, build
the declaration texts with dedup, prepend them, and splice the synthetic
fallback family names into the original declaration when an insertion
offset is available. -/
def addFontFaceDeclaration (env : Env) (id : String) (relative : Bool)
    (st : RewriteState) (fontFamily : String)
    (fallbackOptions : Option FallbackOptions) : RewriteState :=
  let result := (env.resolveFontFace fontFamily (resolveArgsOf fallbackOptions)).getD
    { fonts := none, fallbacks := none }
  match result.fonts with
  | none => st
  | some [] => st
  | some (font0 :: moreFonts) =>
    let fallbackMap := mkFallbackMap fontFamily (result.fallbacks.getD [])
    let fontsToPreload :=
      if env.shouldPreload fontFamily font0 then
        match firstRemoteUrl font0 with
        | some u =>
          if u ≠ "" then
            mapSet st.fontsToPreload id (setAdd ((mapGet st.fontsToPreload id).getD []) u)
          else st.fontsToPreload
        | none => st.fontsToPreload
      else st.fontsToPreload
    let r := fontsLoop env relative id fontFamily fallbackMap (font0 :: moreFonts)
      st.injectedDeclarations [] false
    let buffer := st.buffer.prepend (String.join r.2.1)
    let buffer :=
      match fallbackOptions with
      | some fo =>
        if r.2.2 then buffer.prependLeft fo.index (", " ++ insertedFamiliesText fallbackMap)
        else buffer
      | none => buffer
    { buffer := buffer, injectedDeclarations := r.1, fontsToPreload := fontsToPreload }

/-- The first walker pass: collect families of `font-family` declarations
whose enclosing at-rule is named `font-family` (sic: the source compares
against `'font-family'`, not `'font-face'`). -/
def scanExistingFamilies (decls : List Declaration) : List String :=
  decls.foldl (fun acc d =>
    if d.atruleName = some "font-family" ∧ d.property = "font-family" then
      d.families.foldl setAdd acc
    else acc) []

/-- The candidate test of the second walker pass for a single declaration:
`none` when the declaration is skipped, otherwise the scheduled task
(family plus optional fallback options). -/
def declTask (env : Env) (existingFontFamilies : List String) (parentOffset : Nat)
    (d : Declaration) : Option (String × Option FallbackOptions) :=
  if ((d.property ≠ "font-family" ∧ d.property ≠ "font") ∧
      (env.processCSSVariables = false ∨ d.property.startsWith "--" = false)) ∨
     d.atruleName = some "font-face" then
    none
  else
    match d.families with
    | [] => none
    | fontFamily :: fallbacks =>
      if fontFamily ≠ "" ∧ fontFamily ∉ existingFontFamilies then
        some (fontFamily,
          if d.valueIsRaw then none
          else some { fallbacks := fallbacks, generic := d.generic,
                      index := d.endOfFirstChild + parentOffset })
      else none

/-- The second walker pass: the scheduled resolution tasks in walk order. -/
def candidateTasks (env : Env) (existingFontFamilies : List String) (parentOffset : Nat)
    (decls : List Declaration) : List (String × Option FallbackOptions) :=
  decls.filterMap (declTask env existingFontFamilies parentOffset)

/-- `processNode`: run the scanner pass to completion, then the candidate
pass against the resulting existing-family set. -/
def processNode (env : Env) (decls : List Declaration) (parentOffset : Nat) :
    List String × List (String × Option FallbackOptions) :=
  let existing := scanExistingFamilies decls
  (existing, candidateTasks env existing parentOffset decls)

/-- `transformCSS` on an already-parsed AST: fresh per-call state, walk,
then settle every scheduled task (modelled in scheduling order). -/
def transformCSSAst (env : Env) (code : String) (id : String) (relative : Bool)
    (decls : List Declaration) (fontsToPreload : List (String × List String)) :
    RewriteState :=
  (processNode env decls 0).2.foldl
    (fun st t => addFontFaceDeclaration env id relative st t.1 t.2)
    { buffer := { original := code, intro := "", lefts := [] },
      injectedDeclarations := [],
      fontsToPreload := fontsToPreload }

/-- `transformCSS`: parse the source text and rewrite. -/
def transformCSS (env : Env) (code : String) (id : String) (relative : Bool)
    (fontsToPreload : List (String × List String)) : RewriteState :=
  transformCSSAst env code id relative (env.parse code) fontsToPreload

/-- An output chunk as seen by the `renderChunk` hook. -/
structure Chunk where
  facadeModuleId : Option String
  moduleIds : List String
deriving DecidableEq

/-- The `renderChunk` hook: for every constituent module with a preload
entry, set the facade module's entry to that module's entry. -/
def renderChunk (fontsToPreload : List (String × List String)) (chunk : Chunk) :
    List (String × List String) :=
  match chunk.facadeModuleId with
  | none => fontsToPreload
  | some facade =>
    chunk.moduleIds.foldl (fun m file =>
      match mapGet m file with
      | some urls => mapSet m facade urls
      | none => m) fontsToPreload

/-- The extensions of the `IS_CSS_RE` regular expression. -/
def cssExtensions : List String :=
  ["css", "scss", "sass", "postcss", "pcss", "less", "stylus", "styl"]

/-- Whether the character list ends in a dot followed by a CSS extension. -/
def hasCssDotExt (cs : List Char) : Bool :=
  cssExtensions.any (fun ext => ("." ++ ext).data.isSuffixOf cs)

/-- `isCSS`: the file name matches the `IS_CSS_RE` regular expression — a
CSS extension, optionally followed by `?` and a non-empty dot-free query. -/
def isCSS (id : String) : Bool :=
  hasCssDotExt id.data ||
  (List.range id.data.length).any (fun i =>
    id.data.getD i ' ' == '?' &&
    hasCssDotExt (id.data.take i) &&
    !(id.data.drop (i + 1)).isEmpty &&
    (id.data.drop (i + 1)).all (fun c => c != '.'))

/-- One entry of the output bundle, keyed by `key`; `typeIsAsset` models
`chunk.type === 'asset'`. -/
structure BundleAsset where
  key : String
  fileName : String
  typeIsAsset : Bool
  source : String
deriving DecidableEq

/-- The body of the `generateBundle` loop for one bundle entry: rewrite
CSS assets and replace the source only when the buffer changed. -/
def processAsset (env : Env) (fontsToPreload : List (String × List String))
    (a : BundleAsset) : BundleAsset × List (String × List String) :=
  if a.typeIsAsset && isCSS a.fileName then
    let st := transformCSS env a.source a.key true fontsToPreload
    (if st.buffer.hasChanged then { a with source := st.buffer.toStr } else a,
     st.fontsToPreload)
  else (a, fontsToPreload)

/-- The `generateBundle` hook over the whole bundle. -/
def generateBundle (env : Env) (bundle : List BundleAsset)
    (fontsToPreload : List (String × List String)) :
    List BundleAsset × List (String × List String) :=
  bundle.foldl (fun acc a =>
    let r := processAsset env acc.2 a
    (acc.1 ++ [r.1], r.2)) ([], fontsToPreload)

/-! ### Edit-buffer lemmas -/

theorem prepend_original (m : MagicStr) (c : String) :
    (m.prepend c).original = m.original := rfl

theorem prependLeft_original (m : MagicStr) (i : Nat) (c : String) :
    (m.prependLeft i c).original = m.original := rfl

theorem prepend_lefts (m : MagicStr) (c : String) :
    (m.prepend c).lefts = m.lefts := rfl

theorem prependLeft_intro (m : MagicStr) (i : Nat) (c : String) :
    (m.prependLeft i c).intro = m.intro := rfl

theorem prepend_intro (m : MagicStr) (c : String) :
    (m.prepend c).intro = c ++ m.intro := rfl

theorem prependLeft_lefts (m : MagicStr) (i : Nat) (c : String) :
    (m.prependLeft i c).lefts = (i, c) :: m.lefts := rfl

theorem stringMkData (s : String) : String.mk s.data = s := rfl

theorem stringEmptyAppend (s : String) : "" ++ s = s := rfl

theorem insertsAt_nil (j : Nat) : insertsAt [] j = [] := rfl

theorem weaveChars_nil : ∀ (j : Nat) (cs : List Char), weaveChars [] j cs = cs
  | _, [] => rfl
  | j, _ :: cs => by simp [weaveChars, insertsAt_nil, weaveChars_nil (j + 1) cs]

theorem sublist_weaveChars (lefts : List (Nat × String)) :
    ∀ (j : Nat) (cs : List Char), cs.Sublist (weaveChars lefts j cs)
  | _, [] => List.nil_sublist _
  | j, c :: cs => by
    have ih := sublist_weaveChars lefts (j + 1) cs
    simpa [weaveChars] using (ih.cons₂ c).trans (List.sublist_append_right _ _)

theorem render_no_edits (code : String) :
    (MagicStr.mk code "" []).render = code.data := by
  simp [MagicStr.render, weaveChars_nil]

theorem hasChanged_no_edits (code : String) :
    (MagicStr.mk code "" []).hasChanged = false := by
  simp [MagicStr.hasChanged, MagicStr.toStr, render_no_edits, stringMkData]

/-! ### Set and map lemmas -/

theorem mem_setAdd_self (s : List String) (u : String) : u ∈ setAdd s u := by
  unfold setAdd; split <;> simp_all

theorem mem_setAdd_of_mem (s : List String) (u : String) {v : String} (h : v ∈ s) :
    v ∈ setAdd s u := by
  unfold setAdd; split <;> simp_all

theorem mem_setAdd_iff {s : List String} {u v : String} :
    v ∈ setAdd s u ↔ v ∈ s ∨ v = u := by
  unfold setAdd
  split
  · rename_i h
    constructor
    · exact Or.inl
    · rintro (hv | rfl) <;> assumption
  · simp

theorem mem_foldl_setAdd_of_mem :
    ∀ (fs acc : List String) {x : String}, x ∈ acc → x ∈ fs.foldl setAdd acc
  | [], _, _, h => h
  | _ :: fs, acc, _, h => mem_foldl_setAdd_of_mem fs _ (mem_setAdd_of_mem acc _ h)

theorem mem_foldl_setAdd :
    ∀ (fs acc : List String) {f : String}, f ∈ fs → f ∈ fs.foldl setAdd acc
  | f' :: fs, acc, f, h => by
    rcases List.mem_cons.1 h with h | h
    · subst h
      exact mem_foldl_setAdd_of_mem fs _ (mem_setAdd_self acc f)
    · exact mem_foldl_setAdd fs _ h

theorem foldl_setAdd_of_subset :
    ∀ (fs acc : List String), (∀ f ∈ fs, f ∈ acc) → fs.foldl setAdd acc = acc
  | [], _, _ => rfl
  | f :: fs, acc, h => by
    have hf : setAdd acc f = acc := by
      unfold setAdd; rw [if_pos (h f (by simp))]
    rw [List.foldl_cons, hf]
    exact foldl_setAdd_of_subset fs acc (fun g hg => h g (by simp [hg]))

theorem mapGet_mapSet_self : ∀ (m : List (String × List String)) (k : String) (v : List String),
    mapGet (mapSet m k v) k = some v
  | [], k, v => by simp [mapSet, mapGet]
  | p :: rest, k, v => by
    by_cases h : p.1 = k
    · simp [mapSet, mapGet, h]
    · simp [mapSet, mapGet, h, mapGet_mapSet_self rest k v]

theorem mapGet_mapSet_ne :
    ∀ (m : List (String × List String)) (k : String) (v : List String) (k' : String),
      k' ≠ k → mapGet (mapSet m k v) k' = mapGet m k'
  | [], k, v, k', h => by
    simp only [mapSet, mapGet]
    rw [if_neg (fun hh => h hh.symm)]
  | p :: rest, k, v, k', h => by
    by_cases hp : p.1 = k
    · simp only [mapSet, if_pos hp, mapGet]
      rw [if_neg (fun hh => h hh.symm), if_neg (fun hh => h (hp ▸ hh).symm)]
    · by_cases hp' : p.1 = k'
      · simp only [mapSet]
        rw [if_neg hp]
        simp only [mapGet]
        rw [if_pos hp', if_pos hp']
      · simp only [mapSet]
        rw [if_neg hp]
        simp only [mapGet]
        rw [if_neg hp', if_neg hp']
        exact mapGet_mapSet_ne rest k v k' h

/-! ### Declaration-injection loop lemmas -/

theorem mem_injectDeclarations_of_mem (env : Env) :
    ∀ (ds injected prefaces : List String) {x : String}, x ∈ injected →
      x ∈ (injectDeclarations env ds injected prefaces).1
  | [], _, _, _, h => h
  | d :: ds, injected, prefaces, x, h => by
    by_cases hd : d ∈ injected
    · simp only [injectDeclarations, if_pos hd]
      exact mem_injectDeclarations_of_mem env ds injected prefaces h
    · simp only [injectDeclarations, if_neg hd]
      exact mem_injectDeclarations_of_mem env ds _ _ (List.mem_append_left _ h)

theorem mem_injectDeclarations (env : Env) :
    ∀ (ds injected prefaces : List String) {d : String}, d ∈ ds →
      d ∈ (injectDeclarations env ds injected prefaces).1
  | d' :: ds, injected, prefaces, d, h => by
    rcases List.mem_cons.1 h with h | h
    · subst h
      by_cases hd : d ∈ injected
      · simp only [injectDeclarations, if_pos hd]
        exact mem_injectDeclarations_of_mem env ds injected prefaces hd
      · simp only [injectDeclarations, if_neg hd]
        exact mem_injectDeclarations_of_mem env ds _ _ (by simp)
    · by_cases hd : d' ∈ injected
      · simp only [injectDeclarations, if_pos hd]
        exact mem_injectDeclarations env ds injected prefaces h
      · simp only [injectDeclarations, if_neg hd]
        exact mem_injectDeclarations env ds _ _ h

theorem injectDeclarations_of_subset (env : Env) :
    ∀ (ds injected prefaces : List String), (∀ d ∈ ds, d ∈ injected) →
      injectDeclarations env ds injected prefaces = (injected, prefaces)
  | [], _, _, _ => rfl
  | d :: ds, injected, prefaces, h => by
    simp only [injectDeclarations, if_pos (h d (by simp))]
    exact injectDeclarations_of_subset env ds injected prefaces
      (fun g hg => h g (by simp [hg]))

/-! ### Font-loop lemmas -/

theorem mem_fontsLoop_of_mem (env : Env) (relative : Bool) (id fontFamily : String)
    (fallbackMap : List FallbackEntry) :
    ∀ (fonts : List FontFaceData) (injected prefaces : List String) (b : Bool) {x : String},
      x ∈ injected →
      x ∈ (fontsLoop env relative id fontFamily fallbackMap fonts injected prefaces b).1
  | [], _, _, _, _, h => h
  | font :: fonts, injected, prefaces, b, x, h => by
    simp only [fontsLoop]
    exact mem_fontsLoop_of_mem env relative id fontFamily fallbackMap fonts _ _ _
      (mem_injectDeclarations_of_mem env _ injected prefaces h)

theorem mem_fontsLoop (env : Env) (relative : Bool) (id fontFamily : String)
    (fallbackMap : List FallbackEntry) :
    ∀ (fonts : List FontFaceData) (injected prefaces : List String) (b : Bool) {d : String},
      d ∈ generatedDeclarations env relative id fontFamily fallbackMap fonts →
      d ∈ (fontsLoop env relative id fontFamily fallbackMap fonts injected prefaces b).1
  | font :: fonts, injected, prefaces, b, d, h => by
    simp only [generatedDeclarations, List.flatMap_cons] at h
    rcases List.mem_append.1 h with h | h
    · simp only [fontsLoop]
      exact mem_fontsLoop_of_mem env relative id fontFamily fallbackMap fonts _ _ _
        (mem_injectDeclarations env _ injected prefaces h)
    · simp only [fontsLoop]
      exact mem_fontsLoop env relative id fontFamily fallbackMap fonts _ _ _ h

theorem fontsLoop_of_subset (env : Env) (relative : Bool) (id fontFamily : String)
    (fallbackMap : List FallbackEntry) :
    ∀ (fonts : List FontFaceData) (injected prefaces : List String) (b : Bool),
      (∀ d ∈ generatedDeclarations env relative id fontFamily fallbackMap fonts,
        d ∈ injected) →
      fontsLoop env relative id fontFamily fallbackMap fonts injected prefaces b =
        (injected, prefaces, b || anyFallbacks env fontFamily fallbackMap fonts)
  | [], injected, prefaces, b, _ => by simp [fontsLoop, anyFallbacks]
  | font :: fonts, injected, prefaces, b, h => by
    have hsub : ∀ d ∈ fontDeclarations env relative id fontFamily fallbackMap font,
        d ∈ injected := by
      intro d hd
      exact h d (by simp [generatedDeclarations, List.flatMap_cons, hd])
    have hrest : ∀ d ∈ generatedDeclarations env relative id fontFamily fallbackMap fonts,
        d ∈ injected := by
      intro d hd
      apply h d
      simp only [generatedDeclarations, List.flatMap_cons, List.mem_append]
      simp only [generatedDeclarations] at hd
      exact Or.inr hd
    simp only [fontsLoop, injectDeclarations_of_subset env _ injected prefaces hsub]
    rw [fontsLoop_of_subset env relative id fontFamily fallbackMap fonts injected prefaces _
      hrest]
    simp [anyFallbacks, Bool.or_assoc]

theorem fontsLoop_insertFF (env : Env) (relative : Bool) (id fontFamily : String)
    (fallbackMap : List FallbackEntry) :
    ∀ (fonts : List FontFaceData) (injected prefaces : List String) (b : Bool),
      (fontsLoop env relative id fontFamily fallbackMap fonts injected prefaces b).2.2 =
        (b || anyFallbacks env fontFamily fallbackMap fonts)
  | [], _, _, b => by simp [fontsLoop, anyFallbacks]
  | font :: fonts, injected, prefaces, b => by
    simp only [fontsLoop]
    rw [fontsLoop_insertFF env relative id fontFamily fallbackMap fonts _ _ _]
    simp [anyFallbacks, Bool.or_assoc]

/-! ### Resolution-task lemmas -/

theorem add_no_fonts (env : Env) (id : String) (relative : Bool) (st : RewriteState)
    (fontFamily : String) (fo : Option FallbackOptions)
    (h : ((env.resolveFontFace fontFamily (resolveArgsOf fo)).getD
        { fonts := none, fallbacks := none }).fonts = none ∨
      ((env.resolveFontFace fontFamily (resolveArgsOf fo)).getD
        { fonts := none, fallbacks := none }).fonts = some []) :
    addFontFaceDeclaration env id relative st fontFamily fo = st := by
  rcases h with h | h <;> simp [addFontFaceDeclaration, h]

theorem add_original (env : Env) (id : String) (relative : Bool) (st : RewriteState)
    (fontFamily : String) (fo : Option FallbackOptions) :
    (addFontFaceDeclaration env id relative st fontFamily fo).buffer.original =
      st.buffer.original := by
  simp only [addFontFaceDeclaration]
  split
  · rfl
  · rfl
  · dsimp only
    cases fo with
    | none => rfl
    | some foo =>
      dsimp only
      split <;> rfl

theorem add_injected (env : Env) (id : String) (relative : Bool) (st : RewriteState)
    (fontFamily : String) (fo : Option FallbackOptions) (r : FontFaceResolution)
    (font0 : FontFaceData) (moreFonts : List FontFaceData)
    (hr : env.resolveFontFace fontFamily (resolveArgsOf fo) = some r)
    (hf : r.fonts = some (font0 :: moreFonts)) :
    (addFontFaceDeclaration env id relative st fontFamily fo).injectedDeclarations =
      (fontsLoop env relative id fontFamily (mkFallbackMap fontFamily (r.fallbacks.getD []))
        (font0 :: moreFonts) st.injectedDeclarations [] false).1 := by
  simp only [addFontFaceDeclaration, hr, Option.getD_some, hf]

theorem foldl_add_original (env : Env) (id : String) (relative : Bool) :
    ∀ (tasks : List (String × Option FallbackOptions)) (st : RewriteState),
      ((tasks.foldl (fun st t => addFontFaceDeclaration env id relative st t.1 t.2)
        st).buffer.original) = st.buffer.original
  | [], _ => rfl
  | t :: ts, st => by
    rw [List.foldl_cons, foldl_add_original env id relative ts _,
      add_original env id relative st t.1 t.2]

theorem add_intro_after (env : Env) (id : String) (relative : Bool) (st1 : RewriteState)
    (fontFamily : String) (fo' : Option FallbackOptions) (r : FontFaceResolution)
    (font0 : FontFaceData) (moreFonts : List FontFaceData)
    (hr : env.resolveFontFace fontFamily (resolveArgsOf fo') = some r)
    (hf : r.fonts = some (font0 :: moreFonts))
    (hinj : ∀ d ∈ generatedDeclarations env relative id fontFamily
        (mkFallbackMap fontFamily (r.fallbacks.getD [])) (font0 :: moreFonts),
        d ∈ st1.injectedDeclarations) :
    (addFontFaceDeclaration env id relative st1 fontFamily fo').buffer.intro =
      st1.buffer.intro := by
  simp only [addFontFaceDeclaration, hr, Option.getD_some, hf]
  rw [fontsLoop_of_subset env relative id fontFamily _ _ _ _ _ hinj]
  cases fo' with
  | none => simp [MagicStr.prepend, String.join, stringEmptyAppend]
  | some foo =>
    dsimp only
    split <;> simp [MagicStr.prepend, MagicStr.prependLeft, String.join, stringEmptyAppend]

theorem add_intro_stable (env : Env) (id : String) (relative : Bool) (st : RewriteState)
    (fontFamily : String) (fo fo' : Option FallbackOptions)
    (h : resolveArgsOf fo' = resolveArgsOf fo) :
    (addFontFaceDeclaration env id relative
        (addFontFaceDeclaration env id relative st fontFamily fo)
        fontFamily fo').buffer.intro =
      (addFontFaceDeclaration env id relative st fontFamily fo).buffer.intro := by
  cases hres : env.resolveFontFace fontFamily (resolveArgsOf fo) with
  | none =>
    have h1 : addFontFaceDeclaration env id relative st fontFamily fo = st :=
      add_no_fonts env id relative st fontFamily fo (Or.inl (by rw [hres]; rfl))
    rw [h1, add_no_fonts env id relative st fontFamily fo' (Or.inl (by rw [h, hres]; rfl))]
  | some r =>
    have hr' : env.resolveFontFace fontFamily (resolveArgsOf fo') = some r := by
      rw [h, hres]
    cases hf : r.fonts with
    | none =>
      have h1 : addFontFaceDeclaration env id relative st fontFamily fo = st :=
        add_no_fonts env id relative st fontFamily fo
          (Or.inl (by rw [hres]; simpa using hf))
      rw [h1, add_no_fonts env id relative st fontFamily fo'
        (Or.inl (by rw [hr']; simpa using hf))]
    | some fonts =>
      cases fonts with
      | nil =>
        have h1 : addFontFaceDeclaration env id relative st fontFamily fo = st :=
          add_no_fonts env id relative st fontFamily fo
            (Or.inr (by rw [hres]; simpa using hf))
        rw [h1, add_no_fonts env id relative st fontFamily fo'
          (Or.inr (by rw [hr']; simpa using hf))]
      | cons font0 moreFonts =>
        have hinj : ∀ d ∈ generatedDeclarations env relative id fontFamily
            (mkFallbackMap fontFamily (r.fallbacks.getD [])) (font0 :: moreFonts),
            d ∈ (addFontFaceDeclaration env id relative st fontFamily
              fo).injectedDeclarations := by
          intro d hd
          rw [add_injected env id relative st fontFamily fo r font0 moreFonts hres hf]
          exact mem_fontsLoop env relative id fontFamily _ _ _ _ _ hd
        exact add_intro_after env id relative _ fontFamily fo' r font0 moreFonts hr' hf hinj

theorem toStr_data (m : MagicStr) :
    m.toStr.data = m.intro.data ++ weaveChars m.lefts 0 m.original.data := rfl

theorem declTask_pair (env : Env) (existing : List String) (po : Nat) (d d' : Declaration)
    (hp : d'.property = d.property) (ha : d'.atruleName = d.atruleName)
    (hfam : d'.families = d.families) (hraw : d'.valueIsRaw = d.valueIsRaw)
    (hg : d'.generic = d.generic) :
    (declTask env existing po d = none → declTask env existing po d' = none) ∧
    (∀ fam o, declTask env existing po d = some (fam, o) →
      ∃ o', declTask env existing po d' = some (fam, o') ∧
        resolveArgsOf o' = resolveArgsOf o) := by
  by_cases hc : ((d.property ≠ "font-family" ∧ d.property ≠ "font") ∧
      (env.processCSSVariables = false ∨ d.property.startsWith "--" = false)) ∨
      d.atruleName = some "font-face"
  · have e1 : declTask env existing po d = none := by
      simp only [declTask, if_pos hc]
    have e1' : declTask env existing po d' = none := by
      simp only [declTask, hp, ha, if_pos hc]
    refine ⟨fun _ => e1', fun fam o h => ?_⟩
    rw [e1] at h
    exact Option.noConfusion h
  · cases hfams : d.families with
    | nil =>
      have e1 : declTask env existing po d = none := by
        simp only [declTask, if_neg hc, hfams]
      have e1' : declTask env existing po d' = none := by
        simp only [declTask, hp, ha, hfam, if_neg hc, hfams]
      refine ⟨fun _ => e1', fun fam o h => ?_⟩
      rw [e1] at h
      exact Option.noConfusion h
    | cons fontFamily fallbacks =>
      by_cases hg2 : fontFamily ≠ "" ∧ fontFamily ∉ existing
      · have e1 : declTask env existing po d = some (fontFamily,
            if d.valueIsRaw then none
            else some { fallbacks := fallbacks, generic := d.generic,
                        index := d.endOfFirstChild + po }) := by
          simp only [declTask, if_neg hc, hfams, if_pos hg2]
        have e1' : declTask env existing po d' = some (fontFamily,
            if d.valueIsRaw then none
            else some { fallbacks := fallbacks, generic := d.generic,
                        index := d'.endOfFirstChild + po }) := by
          simp only [declTask, hp, ha, hfam, hraw, hg, if_neg hc, hfams, if_pos hg2]
        constructor
        · intro h
          rw [e1] at h
          exact Option.noConfusion h
        · intro fam o h
          rw [e1] at h
          injection h with h
          injection h with h1 h2
          subst h1
          subst h2
          refine ⟨_, e1', ?_⟩
          cases d.valueIsRaw <;> simp [resolveArgsOf]
      · have e1 : declTask env existing po d = none := by
          simp only [declTask, if_neg hc, hfams, if_neg hg2]
        have e1' : declTask env existing po d' = none := by
          simp only [declTask, hp, ha, hfam, if_neg hc, hfams, if_neg hg2]
        refine ⟨fun _ => e1', fun fam o h => ?_⟩
        rw [e1] at h
        exact Option.noConfusion h

/-- Claim C5: if the resolver returns nothing for a candidate family, or a
result with no font list or an empty font list, the resolution task ends
with the rewrite state untouched: nothing is prepended, no fallback names
are inserted, and no preload entry is recorded. -/
theorem claim5_unresolved_family_no_mutation (env : Env) (id : String) (relative : Bool)
    (st : RewriteState) (fontFamily : String) (fo : Option FallbackOptions)
    (h : env.resolveFontFace fontFamily (resolveArgsOf fo) = none ∨
      ∃ r, env.resolveFontFace fontFamily (resolveArgsOf fo) = some r ∧
        (r.fonts = none ∨ r.fonts = some [])) :
    addFontFaceDeclaration env id relative st fontFamily fo = st := by
  apply add_no_fonts
  rcases h with h | ⟨r, hr, hf | hf⟩
  · exact Or.inl (by rw [h]; rfl)
  · exact Or.inl (by rw [hr]; simpa using hf)
  · exact Or.inr (by rw [hr]; simpa using hf)

/-- Claim C6: a newly injected declaration is minified before insertion in
non-development mode, a minification failure degrades to the unminified
text (and the declaration is still queued), and in development mode
minification is skipped and a trailing newline appended instead. -/
theorem claim6_minify_and_dev_newline (env : Env) (injected prefaces : List String)
    (d c : String) (hd : d ∉ injected) :
    (env.isDev = false → env.minify d = none →
      injectDeclarations env [d] injected prefaces = (injected ++ [d], prefaces ++ [d])) ∧
    (env.isDev = false → env.minify d = some c → c ≠ "" →
      injectDeclarations env [d] injected prefaces = (injected ++ [d], prefaces ++ [c])) ∧
    (env.isDev = true →
      injectDeclarations env [d] injected prefaces =
        (injected ++ [d], prefaces ++ [d ++ "\n"])) := by
  refine ⟨fun h1 h2 => ?_, fun h1 h2 h3 => ?_, fun h1 => ?_⟩
  · simp [injectDeclarations, if_neg hd, prepareDeclaration, h1, h2]
  · simp [injectDeclarations, if_neg hd, prepareDeclaration, h1, h2, h3]
  · simp [injectDeclarations, if_neg hd, prepareDeclaration, h1]

/-- Claim C9: the rewrite never deletes, replaces or reorders original
text: the buffer keeps the original source unchanged, its materialisation
is the prepends followed by the original characters with each
offset-anchored insertion rendered immediately before the character at its
offset, and hence every input character appears in the output in its
original relative order. -/
theorem claim9_original_text_preserved (env : Env) (code id : String) (relative : Bool)
    (pm : List (String × List String)) :
    (transformCSS env code id relative pm).buffer.original = code ∧
    (transformCSS env code id relative pm).buffer.toStr.data =
      (transformCSS env code id relative pm).buffer.intro.data ++
        weaveChars (transformCSS env code id relative pm).buffer.lefts 0 code.data ∧
    code.data.Sublist (transformCSS env code id relative pm).buffer.toStr.data := by
  have horig : (transformCSS env code id relative pm).buffer.original = code := by
    unfold transformCSS transformCSSAst
    exact foldl_add_original env id relative _ _
  refine ⟨horig, ?_, ?_⟩
  · rw [toStr_data, horig]
  · rw [toStr_data, horig]
    exact (sublist_weaveChars _ 0 code.data).trans (List.sublist_append_right _ _)

/-- Claim C4: within one stylesheet rewrite a generated declaration whose
exact text has already been inserted is never queued again: a stylesheet
whose AST holds two content-identical candidate declarations (same
property, enclosing at-rule, family list, rawness and generic; possibly at
different offsets) prepends exactly the text that a single occurrence
would, so the generated `@font-face` appears once in the output. -/
theorem claim4_injected_declaration_dedup (env : Env) (code id : String) (relative : Bool)
    (pm : List (String × List String)) (d d' : Declaration)
    (hp : d'.property = d.property) (ha : d'.atruleName = d.atruleName)
    (hfam : d'.families = d.families) (hraw : d'.valueIsRaw = d.valueIsRaw)
    (hg : d'.generic = d.generic) :
    (transformCSSAst env code id relative [d, d'] pm).buffer.intro =
      (transformCSSAst env code id relative [d] pm).buffer.intro := by
  have hE : scanExistingFamilies [d, d'] = scanExistingFamilies [d] := by
    simp only [scanExistingFamilies, List.foldl_cons, List.foldl_nil, hp, ha, hfam]
    by_cases hc : d.atruleName = some "font-family" ∧ d.property = "font-family"
    · simp only [if_pos hc]
      exact foldl_setAdd_of_subset _ _ (fun f hf => mem_foldl_setAdd _ _ hf)
    · simp [if_neg hc]
  have hpair := declTask_pair env (scanExistingFamilies [d]) 0 d d' hp ha hfam hraw hg
  cases hD : declTask env (scanExistingFamilies [d]) 0 d with
  | none =>
    have hD' := hpair.1 hD
    simp [transformCSSAst, processNode, candidateTasks, hE, hD, hD']
  | some t =>
    obtain ⟨fam, o⟩ := t
    obtain ⟨o', hD', hargs⟩ := hpair.2 fam o hD
    simp only [transformCSSAst, processNode, candidateTasks, hE, List.filterMap_cons, hD,
      hD', List.filterMap_nil, List.foldl_cons, List.foldl_nil]
    exact add_intro_stable env id relative _ fam o o' hargs

/-- Claim C7: a declaration is scheduled for asynchronous resolution iff
its property is exactly `font-family` or `font`, or custom-property
processing is on and the property starts with `--`, and it is not inside
an `@font-face` rule, and its first extracted family is non-empty and not
in the existing-family set; a declaration failing the test contributes no
task to the candidate walk. -/
theorem claim7_candidate_scheduling_iff (env : Env) (existing : List String) (po : Nat)
    (d : Declaration) (decls : List Declaration) :
    ((declTask env existing po d).isSome = true ↔
      ((d.property = "font-family" ∨ d.property = "font" ∨
          (env.processCSSVariables = true ∧ d.property.startsWith "--" = true)) ∧
        d.atruleName ≠ some "font-face" ∧
        ∃ f fs, d.families = f :: fs ∧ f ≠ "" ∧ f ∉ existing)) ∧
    candidateTasks env existing po (decls ++ [d]) =
      candidateTasks env existing po decls ++ (declTask env existing po d).toList := by
  constructor
  · by_cases hc : ((d.property ≠ "font-family" ∧ d.property ≠ "font") ∧
        (env.processCSSVariables = false ∨ d.property.startsWith "--" = false)) ∨
        d.atruleName = some "font-face"
    · simp only [declTask, if_pos hc, Option.isSome_none]
      constructor
      · intro h
        exact Bool.noConfusion h
      · rintro ⟨h1, h2, -⟩
        exfalso
        rcases hc with ⟨⟨hp1, hp2⟩, hv⟩ | hat
        · rcases h1 with h1 | h1 | ⟨hb1, hb2⟩
          · exact hp1 h1
          · exact hp2 h1
          · rcases hv with hv | hv
            · rw [hb1] at hv
              exact Bool.noConfusion hv
            · rw [hb2] at hv
              exact Bool.noConfusion hv
        · exact h2 hat
    · have hnA : ¬((d.property ≠ "font-family" ∧ d.property ≠ "font") ∧
          (env.processCSSVariables = false ∨ d.property.startsWith "--" = false)) :=
        (not_or.1 hc).1
      have hnB : ¬d.atruleName = some "font-face" := (not_or.1 hc).2
      cases hfams : d.families with
      | nil => simp [declTask, if_neg hc, hfams]
      | cons f fs =>
        by_cases hg2 : f ≠ "" ∧ f ∉ existing
        · simp only [declTask, if_neg hc, hfams, if_pos hg2, Option.isSome_some, true_iff]
          refine ⟨?_, hnB, f, fs, rfl, hg2.1, hg2.2⟩
          by_cases hp1 : d.property = "font-family"
          · exact Or.inl hp1
          by_cases hp2 : d.property = "font"
          · exact Or.inr (Or.inl hp2)
          refine Or.inr (Or.inr ⟨?_, ?_⟩)
          · cases hpcv : env.processCSSVariables
            · exact absurd ⟨⟨hp1, hp2⟩, Or.inl hpcv⟩ hnA
            · rfl
          · cases hsw : d.property.startsWith "--"
            · exact absurd ⟨⟨hp1, hp2⟩, Or.inr hsw⟩ hnA
            · rfl
        · simp only [declTask, if_neg hc, hfams, if_neg hg2, Option.isSome_none]
          constructor
          · intro h
            exact Bool.noConfusion h
          · rintro ⟨-, -, f', fs', heq, hne, hmem⟩
            injection heq with e1 e2
            subst e1
            exact absurd ⟨hne, hmem⟩ hg2
  · simp only [candidateTasks, List.filterMap_append]
    cases h : declTask env existing po d <;> simp [h]

/-- Claim C3: every resolved fallback font name yields the synthetic family
name `<family> Fallback: <name>`; when fallback declarations were generated
and an insertion offset exists, the comma-joined quoted synthetic names,
preceded by `, `, are inserted at that offset; for an unparsed raw value no
offset exists, the insertion is skipped, and the generated CSS is still
prepended. -/
theorem claim3_fallback_names_and_insertion (env : Env) (id : String) (relative : Bool)
    (st : RewriteState) (fontFamily : String) (fo : Option FallbackOptions)
    (r : FontFaceResolution) (fonts : List FontFaceData)
    (hr : env.resolveFontFace fontFamily (resolveArgsOf fo) = some r)
    (hf : r.fonts = some fonts) (hne : fonts ≠ []) :
    (∀ e ∈ mkFallbackMap fontFamily (r.fallbacks.getD []),
      e.name = fontFamily ++ " Fallback: " ++ e.font) ∧
    (∀ foo, fo = some foo →
      anyFallbacks env fontFamily (mkFallbackMap fontFamily (r.fallbacks.getD []))
          fonts = true →
      (addFontFaceDeclaration env id relative st fontFamily fo).buffer.lefts =
        (foo.index,
          ", " ++ insertedFamiliesText (mkFallbackMap fontFamily (r.fallbacks.getD [])))
          :: st.buffer.lefts) ∧
    (fo = none →
      (addFontFaceDeclaration env id relative st fontFamily fo).buffer.lefts =
          st.buffer.lefts ∧
      (addFontFaceDeclaration env id relative st fontFamily fo).buffer.intro =
        String.join (fontsLoop env relative id fontFamily
            (mkFallbackMap fontFamily (r.fallbacks.getD [])) fonts
            st.injectedDeclarations [] false).2.1 ++ st.buffer.intro) := by
  obtain ⟨font0, moreFonts, rfl⟩ : ∃ f0 fs, fonts = f0 :: fs := by
    cases fonts with
    | nil => exact absurd rfl hne
    | cons a l => exact ⟨a, l, rfl⟩
  refine ⟨?_, ?_, ?_⟩
  · intro e he
    simp only [mkFallbackMap, List.mem_map] at he
    obtain ⟨f, -, rfl⟩ := he
    rfl
  · rintro foo rfl hany
    simp only [addFontFaceDeclaration, hr, Option.getD_some, hf]
    rw [fontsLoop_insertFF env relative id fontFamily _ _ _ _ _]
    simp [hany, MagicStr.prepend, MagicStr.prependLeft]
  · rintro rfl
    simp only [addFontFaceDeclaration, hr, Option.getD_some, hf]
    exact ⟨rfl, rfl⟩

/-- Claim C10: declaration-text deduplication does not suppress the
per-declaration fallback-name splicing: when every generated declaration
text is already in the injected set, nothing new is prepended (the intro is
unchanged), yet the quoted synthetic fallback names are still inserted at
the candidate's offset because the insertion condition only requires that
fallback declarations were generated. -/
theorem claim10_dedup_does_not_suppress_insertion (env : Env) (id : String)
    (relative : Bool) (st : RewriteState) (fontFamily : String) (foo : FallbackOptions)
    (r : FontFaceResolution) (fonts : List FontFaceData)
    (hr : env.resolveFontFace fontFamily (resolveArgsOf (some foo)) = some r)
    (hf : r.fonts = some fonts) (hne : fonts ≠ [])
    (hinj : ∀ dcl ∈ generatedDeclarations env relative id fontFamily
        (mkFallbackMap fontFamily (r.fallbacks.getD [])) fonts,
        dcl ∈ st.injectedDeclarations)
    (hany : anyFallbacks env fontFamily (mkFallbackMap fontFamily (r.fallbacks.getD []))
        fonts = true) :
    (addFontFaceDeclaration env id relative st fontFamily (some foo)).buffer.intro =
        st.buffer.intro ∧
    (addFontFaceDeclaration env id relative st fontFamily (some foo)).buffer.lefts =
      (foo.index,
        ", " ++ insertedFamiliesText (mkFallbackMap fontFamily (r.fallbacks.getD [])))
        :: st.buffer.lefts := by
  obtain ⟨font0, moreFonts, rfl⟩ : ∃ f0 fs, fonts = f0 :: fs := by
    cases fonts with
    | nil => exact absurd rfl hne
    | cons a l => exact ⟨a, l, rfl⟩
  simp only [addFontFaceDeclaration, hr, Option.getD_some, hf]
  rw [fontsLoop_of_subset env relative id fontFamily _ _ _ _ _ hinj]
  constructor
  · simp [hany, MagicStr.prepend, MagicStr.prependLeft, String.join, stringEmptyAppend]
  · simp [hany, MagicStr.prepend, MagicStr.prependLeft, String.join, stringEmptyAppend]

theorem find?_ext {α : Type} :
    ∀ (l : List α) (p q : α → Bool), (∀ x ∈ l, p x = q x) → l.find? p = l.find? q
  | [], _, _, _ => rfl
  | a :: l, p, q, h => by
    have ha := h a (List.mem_cons_self a l)
    have ih := find?_ext l p q (fun x hx => h x (List.mem_cons_of_mem a hx))
    simp only [List.find?_cons, ha, ih]

theorem renderChunk_foldl (facade : String) :
    ∀ (mods : List String) (pm : List (String × List String)), facade ∉ mods →
      (mapGet (mods.foldl (fun m file =>
          match mapGet m file with
          | some urls => mapSet m facade urls
          | none => m) pm) facade =
        (match mods.reverse.find? (fun m => mapHas pm m) with
         | some last => mapGet pm last
         | none => mapGet pm facade)) ∧
      (∀ k, k ≠ facade →
        mapGet (mods.foldl (fun m file =>
          match mapGet m file with
          | some urls => mapSet m facade urls
          | none => m) pm) k = mapGet pm k)
  | [], pm, _ => by simp
  | x :: rest, pm, hmem => by
    have hrest : facade ∉ rest := fun h => hmem (List.mem_cons_of_mem x h)
    cases hgx : mapGet pm x with
    | some urls =>
      have ih := renderChunk_foldl facade rest (mapSet pm facade urls) hrest
      have hcong : rest.reverse.find? (fun m => mapHas (mapSet pm facade urls) m) =
          rest.reverse.find? (fun m => mapHas pm m) := by
        apply find?_ext
        intro m hm
        have hmf : m ≠ facade := by
          intro h
          exact hrest (h ▸ List.mem_reverse.1 hm)
        simp [mapHas, mapGet_mapSet_ne pm facade urls m hmf]
      constructor
      · rw [List.foldl_cons]
        simp only [hgx]
        rw [ih.1, hcong, List.reverse_cons, List.find?_append]
        cases hfind : rest.reverse.find? (fun m => mapHas pm m) with
        | some last =>
          have hlast : last ∈ rest := List.mem_reverse.1 (List.mem_of_find?_eq_some hfind)
          have hlf : last ≠ facade := fun h => hrest (h ▸ hlast)
          simp [Option.or, mapGet_mapSet_ne pm facade urls last hlf]
        | none =>
          have hhx : mapHas pm x = true := by simp [mapHas, hgx]
          simp [Option.or, List.find?_cons, hhx, mapGet_mapSet_self, hgx]
      · intro k hk
        rw [List.foldl_cons]
        simp only [hgx]
        rw [ih.2 k hk, mapGet_mapSet_ne pm facade urls k hk]
    | none =>
      have ih := renderChunk_foldl facade rest pm hrest
      constructor
      · rw [List.foldl_cons]
        simp only [hgx]
        rw [ih.1, List.reverse_cons, List.find?_append]
        have hhx : mapHas pm x = false := by simp [mapHas, hgx]
        cases hfind : rest.reverse.find? (fun m => mapHas pm m) <;>
          simp [Option.or, List.find?_cons, hhx, hfind]
      · intro k hk
        rw [List.foldl_cons]
        simp only [hgx]
        exact ih.2 k hk

/-- Claim C2 counterexample: the per-chunk propagation is not a set-union
merge and not order-independent: with entries `m1 = [u1]` and `m2 = [u2]`
the facade ends up with only the last module's URLs, `u1` is lost, and
reversing the module order changes the result. -/
theorem claim2_preload_merge_not_union_cex :
    mapGet (renderChunk [("m1", ["u1"]), ("m2", ["u2"])]
      { facadeModuleId := some "F", moduleIds := ["m1", "m2"] }) "F" = some ["u2"] ∧
    "u1" ∉ (mapGet (renderChunk [("m1", ["u1"]), ("m2", ["u2"])]
      { facadeModuleId := some "F", moduleIds := ["m1", "m2"] }) "F").getD [] ∧
    mapGet (renderChunk [("m1", ["u1"]), ("m2", ["u2"])]
      { facadeModuleId := some "F", moduleIds := ["m2", "m1"] }) "F" = some ["u1"] := by
  decide

/-- Claim C2 (amended): during a rewrite a preloadable URL is union-added
to the current asset id's URL set (`setAdd` is a set union with one
element, other keys untouched); during per-chunk propagation, however, the
facade module's entry is overwritten by each constituent module's entry in
turn, so the facade ends with the entry of the last module in iteration
order that has one — not the union of all modules' URLs — while all other
keys are unchanged. -/
theorem claim2_preload_registry_behaviour (env : Env) (id : String) (relative : Bool)
    (st : RewriteState) (fontFamily : String) (fo : Option FallbackOptions)
    (r : FontFaceResolution) (font0 : FontFaceData) (moreFonts : List FontFaceData)
    (u : String) (pm : List (String × List String)) (facade : String) (mods : List String)
    (s : List String) (v : String) :
    (env.resolveFontFace fontFamily (resolveArgsOf fo) = some r →
      r.fonts = some (font0 :: moreFonts) →
      env.shouldPreload fontFamily font0 = true →
      firstRemoteUrl font0 = some u → u ≠ "" →
      (addFontFaceDeclaration env id relative st fontFamily fo).fontsToPreload =
        mapSet st.fontsToPreload id
          (setAdd ((mapGet st.fontsToPreload id).getD []) u)) ∧
    (v ∈ setAdd s u ↔ v ∈ s ∨ v = u) ∧
    (facade ∉ mods →
      (mapGet (renderChunk pm { facadeModuleId := some facade, moduleIds := mods })
          facade =
        (match mods.reverse.find? (fun m => mapHas pm m) with
         | some last => mapGet pm last
         | none => mapGet pm facade)) ∧
      (∀ k, k ≠ facade →
        mapGet (renderChunk pm { facadeModuleId := some facade, moduleIds := mods }) k =
          mapGet pm k)) := by
  refine ⟨fun hr hfonts hsp hurl hu => ?_, mem_setAdd_iff, fun hmem => ?_⟩
  · simp [addFontFaceDeclaration, hr, Option.getD_some, hfonts, hsp, hurl, if_pos hu]
  · simpa only [renderChunk] using renderChunk_foldl facade mods pm hmem

/-- Claim C8: the bundle hook replaces a CSS asset's content only when the
rewrite changed something; a stylesheet whose declarations are all
non-candidates (no `font-family`/`font` declarations outside `@font-face`,
custom-property processing off) yields an unchanged edit buffer and the
asset's source is left untouched. -/
theorem claim8_bundle_noop_detection (env : Env) (pm : List (String × List String))
    (a : BundleAsset) :
    ((transformCSS env a.source a.key true pm).buffer.hasChanged = false →
      (processAsset env pm a).1 = a) ∧
    (env.processCSSVariables = false →
      (∀ d ∈ env.parse a.source,
        (d.property ≠ "font-family" ∧ d.property ≠ "font") ∨
          d.atruleName = some "font-face") →
      (transformCSS env a.source a.key true pm).buffer.hasChanged = false ∧
        (processAsset env pm a).1 = a) := by
  have hpart1 : (transformCSS env a.source a.key true pm).buffer.hasChanged = false →
      (processAsset env pm a).1 = a := by
    intro h
    unfold processAsset
    by_cases hcss : a.typeIsAsset && isCSS a.fileName
    · simp [hcss, h]
    · simp [hcss]
  refine ⟨hpart1, fun hpcv hnone => ?_⟩
  have htasks : candidateTasks env (scanExistingFamilies (env.parse a.source)) 0
      (env.parse a.source) = [] := by
    apply List.filterMap_eq_nil_iff.2
    intro d hd
    rcases hnone d hd with ⟨h1, h2⟩ | h3
    · simp only [declTask]
      rw [if_pos (Or.inl ⟨⟨h1, h2⟩, Or.inl hpcv⟩)]
    · simp only [declTask]
      rw [if_pos (Or.inr h3)]
  have hbuf : (transformCSS env a.source a.key true pm).buffer =
      { original := a.source, intro := "", lefts := [] } := by
    simp only [transformCSS, transformCSSAst, processNode, htasks, List.foldl_nil]
  have hch : (transformCSS env a.source a.key true pm).buffer.hasChanged = false := by
    rw [hbuf]
    exact hasChanged_no_edits a.source
  exact ⟨hch, hpart1 hch⟩

/-! ### Concrete instances -/

/-- A font descriptor with one remote source. -/
def fooFont : FontFaceData :=
  { src := [{ url := some "https://x/foo.woff2" }] }

/-- The scenario input of claim C1:
`@font-face\x7bfont-family:"Foo"\x7d a\x7bfont-family:"Foo"\x7d`. -/
def cssFooInput : String :=
  "@font-face\x7bfont-family:\"Foo\"\x7d a\x7bfont-family:\"Foo\"\x7d"

/-- The `font-family` declaration inside the `@font-face` rule of
`cssFooInput`. -/
def fontFaceFooDecl : Declaration :=
  { property := "font-family", atruleName := some "font-face", families := ["Foo"],
    valueIsRaw := false, generic := none, endOfFirstChild := 23 }

/-- The later `font-family:"Foo"` usage declaration of `cssFooInput`. -/
def usageFooDecl : Declaration :=
  { property := "font-family", atruleName := none, families := ["Foo"],
    valueIsRaw := false, generic := none, endOfFirstChild := 48 }

/-- A concrete environment whose resolver knows `Foo` (no fallbacks) and
whose parser parses `cssFooInput` to its two declarations. -/
def envFoo : Env :=
  { resolveFontFace := fun fam _ =>
      if fam = "Foo" then some { fonts := some [fooFont], fallbacks := some [] }
      else none,
    processCSSVariables := false,
    shouldPreload := fun _ _ => false,
    isDev := true,
    minify := fun _ => none,
    generateFontFace := fun fam _ =>
      "@font-face\x7bfont-family:\"" ++ fam ++ "\";src:url(foo.woff2)\x7d",
    generateFontFallbacks := fun _ _ _ => [],
    relativise := fun f _ => f,
    assetDir := fun _ => "/",
    parse := fun c => if c = cssFooInput then [fontFaceFooDecl, usageFooDecl] else [] }

/-- Claim C1 (code bug): the scanner pass compares the enclosing at-rule
name against `font-family` instead of `font-face`, so on the scenario
input `@font-face\x7bfont-family:"Foo"\x7d a\x7bfont-family:"Foo"\x7d` the
existing-family set stays empty and a new `@font-face` for `Foo` is
generated and prepended — the rewrite does change the stylesheet, contrary
to the claim. -/
theorem claim1_existing_family_scan_misses_font_face :
    scanExistingFamilies (envFoo.parse cssFooInput) = [] ∧
    (transformCSS envFoo cssFooInput "app.css" false []).buffer.intro =
      "@font-face\x7bfont-family:\"Foo\";src:url(foo.woff2)\x7d\n" ∧
    (transformCSS envFoo cssFooInput "app.css" false []).buffer.hasChanged = true := by
  decide

/-- The empty-resolver environment: resolution always misses, dev mode
off, minifier always fails, parser yields nothing. -/
def envNone : Env :=
  { resolveFontFace := fun _ _ => none,
    processCSSVariables := false,
    shouldPreload := fun _ _ => false,
    isDev := false,
    minify := fun _ => none,
    generateFontFace := fun _ _ => "",
    generateFontFallbacks := fun _ _ _ => [],
    relativise := fun f _ => f,
    assetDir := fun _ => "",
    parse := fun _ => [] }

/-- A fresh rewrite state over the one-character stylesheet `a`. -/
def st0 : RewriteState :=
  { buffer := { original := "a", intro := "", lefts := [] },
    injectedDeclarations := [], fontsToPreload := [] }

/-- A font descriptor for the fallback scenario. -/
def arialFont : FontFaceData :=
  { src := [{ url := some "https://x/arial.woff2" }] }

/-- An environment whose resolver returns one font and the fallback name
`Arial` for family `Foo`, with schematic CSS generators. -/
def envFallback : Env :=
  { resolveFontFace := fun fam _ =>
      if fam = "Foo" then some { fonts := some [arialFont], fallbacks := some ["Arial"] }
      else none,
    processCSSVariables := false,
    shouldPreload := fun _ _ => false,
    isDev := true,
    minify := fun _ => none,
    generateFontFace := fun fam _ => "FACE " ++ fam,
    generateFontFallbacks := fun fam _ fb => fb.map (fun e => "FB " ++ fam ++ " " ++ e.name),
    relativise := fun f _ => f,
    assetDir := fun _ => "",
    parse := fun _ => [] }

/-- Fallback options with insertion offset 5. -/
def fooOptions : FallbackOptions :=
  { fallbacks := [], generic := none, index := 5 }

/-- A state whose injected-declaration set already holds both declaration
texts generated for `Foo` by `envFallback`. -/
def stInjected : RewriteState :=
  { buffer := { original := "a", intro := "", lefts := [] },
    injectedDeclarations := ["FACE Foo", "FB Foo Foo Fallback: Arial"],
    fontsToPreload := [] }

/-- Candidate declaration `font-family: "Foo", sans-serif` at offset 20. -/
def dFoo : Declaration :=
  { property := "font-family", atruleName := none, families := ["Foo", "sans-serif"],
    valueIsRaw := false, generic := some "sans-serif", endOfFirstChild := 20 }

/-- The identical second `font-family: "Foo", sans-serif` declaration,
further down the stylesheet (offset 60). -/
def dFooLater : Declaration :=
  { property := "font-family", atruleName := none, families := ["Foo", "sans-serif"],
    valueIsRaw := false, generic := some "sans-serif", endOfFirstChild := 60 }

/-- A plain CSS asset with no font declarations. -/
def assetPlain : BundleAsset :=
  { key := "a.css", fileName := "a.css", typeIsAsset := true,
    source := "b\x7bcolor:red\x7d" }

/-! ### Witnesses -/

theorem claim2_preload_registry_behaviour_w :
    mapGet (renderChunk [("m1", ["u1"])]
      { facadeModuleId := some "F", moduleIds := ["m1"] }) "F" = some ["u1"] := by
  have h := (claim2_preload_registry_behaviour envNone "a.css" false st0 "Foo" none
    { fonts := none, fallbacks := none } arialFont [] "u" [("m1", ["u1"])] "F" ["m1"]
    [] "v").2.2 (by decide)
  exact h.1.trans (by decide)

theorem claim3_fallback_names_and_insertion_w :
    (addFontFaceDeclaration envFallback "a.css" false st0 "Foo"
      (some fooOptions)).buffer.lefts = [(5, ", \"Foo Fallback: Arial\"")] := by
  have h := (claim3_fallback_names_and_insertion envFallback "a.css" false st0 "Foo"
    (some fooOptions) { fonts := some [arialFont], fallbacks := some ["Arial"] }
    [arialFont] (by decide) rfl (by decide)).2.1 fooOptions rfl (by decide)
  exact h.trans (by decide)

theorem claim4_injected_declaration_dedup_w :
    (transformCSSAst envFallback "css" "a.css" false [dFoo, dFooLater] []).buffer.intro =
      (transformCSSAst envFallback "css" "a.css" false [dFoo] []).buffer.intro :=
  claim4_injected_declaration_dedup envFallback "css" "a.css" false [] dFoo dFooLater
    rfl rfl rfl rfl rfl

theorem claim5_unresolved_family_no_mutation_w :
    addFontFaceDeclaration envNone "app.css" false st0 "Foo" none = st0 :=
  claim5_unresolved_family_no_mutation envNone "app.css" false st0 "Foo" none (Or.inl rfl)

theorem claim6_minify_and_dev_newline_w :
    injectDeclarations envNone ["@font-face-a"] [] [] =
      (["@font-face-a"], ["@font-face-a"]) :=
  (claim6_minify_and_dev_newline envNone [] [] "@font-face-a" "" (by simp)).1 rfl rfl

theorem claim7_candidate_scheduling_iff_w :
    (declTask envFallback [] 0 dFoo).isSome = true :=
  (claim7_candidate_scheduling_iff envFallback [] 0 dFoo []).1.mpr
    ⟨Or.inl rfl, by decide, "Foo", ["sans-serif"], rfl, by decide, by decide⟩

theorem claim8_bundle_noop_detection_w :
    (transformCSS envNone assetPlain.source assetPlain.key true []).buffer.hasChanged =
        false ∧
    (processAsset envNone [] assetPlain).1 = assetPlain :=
  (claim8_bundle_noop_detection envNone [] assetPlain).2 rfl (by decide)

theorem claim10_dedup_does_not_suppress_insertion_w :
    (addFontFaceDeclaration envFallback "a.css" false stInjected "Foo"
        (some fooOptions)).buffer.intro = stInjected.buffer.intro ∧
    (addFontFaceDeclaration envFallback "a.css" false stInjected "Foo"
        (some fooOptions)).buffer.lefts = [(5, ", \"Foo Fallback: Arial\"")] := by
  have h := claim10_dedup_does_not_suppress_insertion envFallback "a.css" false
    stInjected "Foo" fooOptions { fonts := some [arialFont], fallbacks := some ["Arial"] }
    [arialFont] (by decide) rfl (by decide) (by decide) (by decide)
  exact ⟨h.1, h.2.trans (by decide)⟩

end Fontless
